import Mathlib

/-!
Verification development for the parley2 text-widget core.

The Rust sources are embedded shallowly:
* `String` buffers become `Str := List Nat` (the UTF-8 byte sequence);
  byte indices and byte ranges of the source become list indices.
* `&mut self` methods become functions `State → State`.
* The layout engine (parley) is external to the repository; the few
  pieces of its interface that the code uses (`Selection`, `Cursor`,
  `text_range`, `is_collapsed`) are modelled from the spec's
  description of that interface: a selection is two cursors, each a
  byte index plus an affinity, `text_range` is the index interval
  between them, and a selection is collapsed when that interval is
  empty.
-/

namespace Parley2

set_option maxRecDepth 100000

/-- Rust `String` contents as the list of UTF-8 code units (bytes). -/
abbrev Str := List Nat

/-- Rust slice `s[a..b]` (bytes `a ≤ i < b`). -/
def sliceStr (s : Str) (a b : Nat) : Str := (s.take b).drop a

/-- Rust `String::replace_range(a..b, r)`. -/
def replaceRange (s : Str) (a b : Nat) (r : Str) : Str := s.take a ++ r ++ s.drop b

/-- Rust `String::insert_str(i, r)`. -/
def insertStr (s : Str) (i : Nat) (r : Str) : Str := s.take i ++ r ++ s.drop i

/-- Decode one scalar value from a lead byte and its continuation bytes. -/
def utf8DecodeOne (b : Nat) (cont : List Nat) : Nat :=
  match cont with
  | [] => b
  | [b2] => (b % 32) * 64 + b2 % 64
  | [b2, b3] => (b % 16) * 4096 + (b2 % 64) * 64 + b3 % 64
  | b2 :: b3 :: b4 :: _ => (b % 8) * 262144 + (b2 % 64) * 4096 + (b3 % 64) * 64 + b4 % 64

/-- The scalar values of a UTF-8 byte sequence: Rust's `str::chars()`.
The lead byte determines how many continuation bytes follow (one below
0xE0, two below 0xF0, three otherwise). Faithful on every valid
encoding, which is the only kind of string the program builds. -/
def utf8Chars : Str → List Nat
  | [] => []
  | b :: rest =>
    if b < 0x80 then b :: utf8Chars rest
    else
      match rest with
      | [] => [b]
      | b2 :: rest2 =>
        if b < 0xE0 then utf8DecodeOne b [b2] :: utf8Chars rest2
        else
          match rest2 with
          | [] => [utf8DecodeOne b [b2]]
          | b3 :: rest3 =>
            if b < 0xF0 then utf8DecodeOne b [b2, b3] :: utf8Chars rest3
            else
              match rest3 with
              | [] => [utf8DecodeOne b [b2, b3]]
              | b4 :: rest4 => utf8DecodeOne b [b2, b3, b4] :: utf8Chars rest4

/-- Rust `char::is_whitespace`: the Unicode White_Space property. -/
def charIsWhitespace (c : Nat) : Bool :=
  c == 9 || c == 10 || c == 11 || c == 12 || c == 13 || c == 32 ||
  c == 0x85 || c == 0xA0 || c == 0x1680 || (0x2000 ≤ c && c ≤ 0x200A) ||
  c == 0x2028 || c == 0x2029 || c == 0x202F || c == 0x205F || c == 0x3000

/-- Rust `char::is_ascii_punctuation`. -/
def charIsAsciiPunct (c : Nat) : Bool :=
  (0x21 ≤ c && c ≤ 0x2F) || (0x3A ≤ c && c ≤ 0x40) ||
  (0x5B ≤ c && c ≤ 0x60) || (0x7B ≤ c && c ≤ 0x7E)

/-- The crate's `WhitespaceStr::is_whitespace`: every char is whitespace
or ASCII punctuation. -/
def strIsWhitespace (s : Str) : Bool :=
  (utf8Chars s).all (fun c => charIsWhitespace c || charIsAsciiPunct c)

/-- Rust `str::chars().last()`. -/
def lastChar (s : Str) : Option Nat := (utf8Chars s).getLast?

/-- Parley cursor affinity. -/
inductive Affinity
  | Upstream
  | Downstream
deriving DecidableEq

/-- Parley `Cursor`: a byte index plus an affinity. -/
structure Cursor where
  index : Nat
  affinity : Affinity
deriving DecidableEq

/-- Parley `Selection`: anchor and focus cursors. -/
structure Selection where
  anchor : Cursor
  focus : Cursor
deriving DecidableEq

/-- Rust `Cursor::into::<Selection>()`: a collapsed selection at the cursor. -/
def Cursor.toSelection (c : Cursor) : Selection := ⟨c, c⟩

/-- Start of `Selection::text_range()`: the smaller byte index. -/
def Selection.textStart (s : Selection) : Nat := min s.anchor.index s.focus.index

/-- End of `Selection::text_range()`: the larger byte index. -/
def Selection.textStop (s : Selection) : Nat := max s.anchor.index s.focus.index

/-- Parley `Selection::is_collapsed()`: the text range is empty. -/
def Selection.isCollapsed (s : Selection) : Bool := s.anchor.index == s.focus.index

/-- Parley `Selection::zero()`: collapsed at byte 0. -/
def Selection.zero : Selection := Cursor.toSelection ⟨0, Affinity.Downstream⟩

/-- Rust `Range<usize>`. -/
structure NRange where
  start : Nat
  stop : Nat
deriving DecidableEq

/-- Rust `Range::is_empty()`. -/
def NRange.isEmpty (r : NRange) : Bool := decide (r.stop ≤ r.start)

/-- Rust `Range::len()` (truncating at zero). -/
def NRange.len (r : NRange) : Nat := r.stop - r.start

/-- `GrowHint` from text_edit.rs. -/
inductive GrowHint
  | CannotGrow
  | GrowableInsert (size : Nat)
  | GrowableInsertWhitespace (size : Nat)
  | GrowableDelete (size : Nat)
  | GrowableDeleteWhitespace (size : Nat)
deriving DecidableEq

/-- `Ranges` from text_edit.rs. -/
structure Ranges where
  inserted_range : NRange
  deleted_range : NRange
deriving DecidableEq

/-- `Ranges::is_delete_only`. -/
def Ranges.is_delete_only (r : Ranges) : Bool := r.inserted_range.isEmpty

/-- `Ranges::is_insert_only`. -/
def Ranges.is_insert_only (r : Ranges) : Bool := r.deleted_range.isEmpty

/-- `RecordedOp` from text_edit.rs. -/
structure RecordedOp where
  undo : Ranges
  redo : Option Ranges
  prev_selection : Selection
deriving DecidableEq

instance : Inhabited RecordedOp :=
  ⟨{ undo := ⟨⟨0, 0⟩, ⟨0, 0⟩⟩, redo := none, prev_selection := Selection.zero }⟩

/-- `TextRestore` from text_edit.rs. -/
structure TextRestore where
  range_to_clear : NRange
  text_to_restore : Str
  prev_selection : Selection
deriving DecidableEq

/-- `TextEditHistory` from text_edit.rs. -/
structure TextEditHistory where
  undo_text : Str
  redo_text : Str
  history : List RecordedOp
  current_position : Nat
  can_grow : GrowHint
deriving DecidableEq

/-- `TextEditHistory::new`. -/
def TextEditHistory.new : TextEditHistory :=
  { undo_text := [], redo_text := [], history := [],
    current_position := 0, can_grow := GrowHint.CannotGrow }

/-- `TextEditHistory::MAX_GROWABLE_SIZE`. -/
def MAX_GROWABLE_SIZE : Nat := 20

/-- `TextEditHistory::push_new`: `store_str` appends `old_str` to
`undo_text` and returns the appended range; a fresh op is pushed and
`current_position` is incremented. -/
def TextEditHistory.push_new (h : TextEditHistory) (old_str : Str)
    (selection : Selection) (inserted_range : NRange) : TextEditHistory :=
  let undo_range : NRange := ⟨h.undo_text.length, h.undo_text.length + old_str.length⟩
  { h with
    undo_text := h.undo_text ++ old_str,
    history := h.history ++ [{ undo := ⟨inserted_range, undo_range⟩,
                               redo := none, prev_selection := selection }],
    current_position := h.current_position + 1 }

/-- `TextEditHistory::merge_delete`: prepend `old_str` into `undo_text`
at the last op's deleted-range start and widen that op's ranges. -/
def TextEditHistory.merge_delete (h : TextEditHistory) (old_str : Str)
    (inserted_range : NRange) : TextEditHistory :=
  match h.history.getLast? with
  | none => h
  | some last =>
    let start := last.undo.deleted_range.start
    let undo_text' := insertStr h.undo_text start old_str
    let last' := { last with
      undo := ⟨inserted_range, ⟨start, undo_text'.length⟩⟩ }
    { h with undo_text := undo_text', history := h.history.dropLast ++ [last'] }

/-- The in-place `last.undo.inserted_range.end = inserted_range.end`
assignment of the two growable-insert arms of `record`. -/
def TextEditHistory.extend_last_insert (h : TextEditHistory)
    (inserted_range : NRange) : TextEditHistory :=
  match h.history.getLast? with
  | none => h
  | some last =>
    let last' := { last with
      undo := { last.undo with
        inserted_range := ⟨last.undo.inserted_range.start, inserted_range.stop⟩ } }
    { h with history := h.history.dropLast ++ [last'] }

/-- `TextEditHistory::set_grow_hint` (the source unwraps the last op;
after `record` the history is never empty, so the `none` arm is dead). -/
def TextEditHistory.set_grow_hint (h : TextEditHistory) (new_str old_str : Str) :
    TextEditHistory :=
  match h.history.getLast? with
  | none => h
  | some lastRec =>
    let last_op := lastRec.undo
    let hint :=
      if last_op.is_insert_only then
        match lastChar new_str with
        | some c =>
          if charIsWhitespace c then GrowHint.GrowableInsertWhitespace new_str.length
          else GrowHint.GrowableInsert new_str.length
        | none => GrowHint.CannotGrow
      else if last_op.is_delete_only then
        match lastChar old_str with
        | some c =>
          if charIsWhitespace c then GrowHint.GrowableDeleteWhitespace old_str.length
          else GrowHint.GrowableDelete old_str.length
        | none => GrowHint.CannotGrow
      else GrowHint.CannotGrow
    { h with can_grow := hint }

/-- The branch-into-the-past truncation at the top of
`TextEditHistory::record` (text_edit.rs lines 1361–1366): truncate
`undo_text` to the deleted-range start of the op at `current_position`,
clear `redo_text`, truncate the op list at `current_position`. -/
def TextEditHistory.truncate_future (h : TextEditHistory) : TextEditHistory :=
  let undo_trunc := (h.history.getD h.current_position default).undo.deleted_range.start
  { h with
    undo_text := h.undo_text.take undo_trunc,
    redo_text := [],
    history := h.history.take h.current_position }

/-- `TextEditHistory::record`. Rust match guards fall through to the
`_ => push_new` arm when they fail, hence the if-then-else per arm. -/
def TextEditHistory.record (h : TextEditHistory) (old_str new_str : Str)
    (selection : Selection) (inserted_range : NRange) : TextEditHistory :=
  let h :=
    if h.current_position < h.history.length then h.truncate_future
    else h
  let h :=
    match h.history.getLast? with
    | some _ =>
      match h.can_grow with
      | GrowHint.GrowableInsert size =>
        if old_str.isEmpty && decide (size < MAX_GROWABLE_SIZE) then
          h.extend_last_insert inserted_range
        else h.push_new old_str selection inserted_range
      | GrowHint.GrowableInsertWhitespace size =>
        if old_str.isEmpty && strIsWhitespace new_str && decide (size < MAX_GROWABLE_SIZE) then
          h.extend_last_insert inserted_range
        else h.push_new old_str selection inserted_range
      | GrowHint.GrowableDelete size =>
        if inserted_range.isEmpty && decide (size < MAX_GROWABLE_SIZE) then
          h.merge_delete old_str inserted_range
        else h.push_new old_str selection inserted_range
      | GrowHint.GrowableDeleteWhitespace size =>
        if inserted_range.isEmpty && strIsWhitespace old_str && decide (size < MAX_GROWABLE_SIZE) then
          h.merge_delete old_str inserted_range
        else h.push_new old_str selection inserted_range
      | GrowHint.CannotGrow => h.push_new old_str selection inserted_range
    | none => h.push_new old_str selection inserted_range
  h.set_grow_hint new_str old_str

/-- `TextEditHistory::undo`. Returns the restore record together with
the updated history (state passing for `&mut self`). `buffer` is the
live buffer, read to populate the redo data lazily. -/
def TextEditHistory.undo (h : TextEditHistory) (buffer : Str) :
    Option (TextRestore × TextEditHistory) :=
  if h.current_position > 0 then
    let pos := h.current_position - 1
    let last := h.history.getD pos default
    let undo_text_range := last.undo.deleted_range
    let restore : TextRestore :=
      { prev_selection := last.prev_selection,
        range_to_clear := last.undo.inserted_range,
        text_to_restore := sliceStr h.undo_text undo_text_range.start undo_text_range.stop }
    let step :=
      if last.redo.isNone then
        let redo_str := sliceStr buffer restore.range_to_clear.start restore.range_to_clear.stop
        let a := restore.range_to_clear.start
        let redo_range : NRange := ⟨h.redo_text.length, h.redo_text.length + redo_str.length⟩
        (h.redo_text ++ redo_str,
         { last with redo := some ⟨⟨a, a + undo_text_range.len⟩, redo_range⟩ })
      else (h.redo_text, last)
    some (restore,
      { h with current_position := pos, redo_text := step.1,
               history := h.history.set pos step.2 })
  else none

/-- `TextEditHistory::redo`. The source unwraps the op's `redo` field;
the unwrap panic is modelled as `none` (no state transition: a Rust
panic aborts). -/
def TextEditHistory.redo (h : TextEditHistory) :
    Option (TextRestore × TextEditHistory) :=
  match h.history[h.current_position]? with
  | none => none
  | some last =>
    match last.redo with
    | none => none
    | some redoRanges =>
      some ({ prev_selection := last.prev_selection,
              range_to_clear := redoRanges.inserted_range,
              text_to_restore :=
                sliceStr h.redo_text redoRanges.deleted_range.start redoRanges.deleted_range.stop },
            { h with current_position := h.current_position + 1 })

/-- `NewlineMode` from text_edit.rs. -/
inductive NewlineMode
  | Enter
  | ShiftEnter
  | CtrlEnter
  | None
deriving DecidableEq

/-- The `TextEdit` state relevant to the text-editing claims. The
geometry, styling, blink-clock and scroll fields of `TextEdit` /
`TextBox` are omitted: no modelled operation reads them. `text`,
`selection` and `needs_relayout` live in the inner `TextBox`. -/
structure TextEdit where
  text : Str
  selection : Selection
  compose : Option NRange
  show_cursor : Bool
  history : TextEditHistory
  single_line : Bool
  newline_mode : NewlineMode
  showing_placeholder : Bool
  placeholder_text : Option Str
  needs_relayout : Bool
deriving DecidableEq

/-- `remove_newlines_inplace` from text_edit.rs: the loop replaces each
`\n`/`\r` byte (10/13) by a space byte (32), one byte for one byte, and
reports whether anything changed. -/
def remove_newlines_inplace : Str → Str × Bool
  | [] => ([], false)
  | b :: rest =>
    let tail := remove_newlines_inplace rest
    if b == 10 || b == 13 then (32 :: tail.1, true) else (b :: tail.1, tail.2)

/-- `TextEdit::remove_newlines`. -/
def TextEdit.remove_newlines (e : TextEdit) : TextEdit :=
  let r := remove_newlines_inplace e.text
  if r.2 then { e with text := r.1, needs_relayout := true }
  else { e with text := r.1 }

/-- `TextEdit::set_single_line`. -/
def TextEdit.set_single_line (e : TextEdit) (single_line : Bool) : TextEdit :=
  if e.single_line != single_line then
    let e := { e with single_line := single_line, needs_relayout := true }
    if single_line then
      ({ e with newline_mode := NewlineMode.None }).remove_newlines
    else
      { e with newline_mode := NewlineMode.Enter }
  else e

/-- `TextEdit::set_newline_mode`: ignored in single-line mode. -/
def TextEdit.set_newline_mode (e : TextEdit) (mode : NewlineMode) : TextEdit :=
  if !e.single_line then { e with newline_mode := mode } else e

/-- `TextBox::move_to_text_end`, modelled from the spec: the layout
engine (external) collapses the caret at the end of the text. Only the
selection field is affected; the claims using `set_text` concern the
buffer alone. -/
def TextEdit.move_to_text_end (e : TextEdit) : TextEdit :=
  { e with selection := Cursor.toSelection ⟨e.text.length, Affinity.Upstream⟩ }

/-- `TextEdit::set_text` (`cursor_reset` sets `show_cursor := true`;
its clock fields are not modelled). Note: no newline removal. -/
def TextEdit.set_text (e : TextEdit) (new_text : Str) : TextEdit :=
  let e := { e with text := new_text, needs_relayout := true }
  let e := e.move_to_text_end
  { e with compose := none, show_cursor := true, showing_placeholder := false }

/-- The `clear_placeholder!` macro from text_edit.rs. -/
def TextEdit.clear_placeholder (e : TextEdit) : TextEdit :=
  if e.showing_placeholder then
    { e with text := [], showing_placeholder := false,
             needs_relayout := true, selection := Selection.zero }
  else e

/-- `TextEdit::replace_selection`. Both branches strip newlines in
single-line mode; the selection collapses after the inserted text with
`Downstream` affinity iff the inserted text ends with `\n`. -/
def TextEdit.replace_selection (e : TextEdit) (s : Str) : TextEdit :=
  let start := e.selection.textStart
  let e :=
    if e.selection.isCollapsed then
      let e := { e with text := insertStr e.text start s }
      if e.single_line then e.remove_newlines else e
    else
      let e := { e with
        text := replaceRange e.text e.selection.textStart e.selection.textStop s }
      if e.single_line then e.remove_newlines else e
  let index := start + s.length
  let affinity := if s.getLast? == some 10 then Affinity.Downstream else Affinity.Upstream
  { e with selection := Cursor.toSelection ⟨index, affinity⟩ }

/-- `TextEdit::replace_selection_and_record`. -/
def TextEdit.replace_selection_and_record (e : TextEdit) (s : Str) : TextEdit :=
  let old_selection := e.selection
  let a := e.selection.textStart
  let b := e.selection.textStop
  let old_text := sliceStr e.text a b
  let h := e.history.record old_text s old_selection ⟨a, a + s.length⟩
  TextEdit.replace_selection { e with history := h } s

/-- `TextEdit::insert_or_replace_selection` (the source asserts
`!is_composing()`; every caller guards on it, and the theorems carry
the corresponding hypothesis). -/
def TextEdit.insert_or_replace_selection (e : TextEdit) (s : Str) : TextEdit :=
  TextEdit.replace_selection_and_record e.clear_placeholder s

/-- `TextEdit::set_compose`. -/
def TextEdit.set_compose (e : TextEdit) (text : Str)
    (cursor : Option (Nat × Nat)) : TextEdit :=
  let step :=
    match e.compose with
    | some preedit_range =>
      ({ e with text := replaceRange e.text preedit_range.start preedit_range.stop text },
       preedit_range.start)
    | none =>
      let selection_start := e.selection.textStart
      if e.selection.isCollapsed then
        let e := { e with text := insertStr e.text selection_start text }
        let e := if e.single_line then e.remove_newlines else e
        (e, selection_start)
      else
        ({ e with
           text := replaceRange e.text e.selection.textStart e.selection.textStop text },
         selection_start)
  let e := step.1
  let start := step.2
  let e := { e with compose := some ⟨start, start + text.length⟩,
                    show_cursor := cursor.isSome }
  let c := cursor.getD (0, 0)
  { e with
    selection := ⟨⟨start + c.1, Affinity.Downstream⟩, ⟨start + c.2, Affinity.Downstream⟩⟩,
    needs_relayout := true }

/-- `TextEdit::clear_compose`. -/
def TextEdit.clear_compose (e : TextEdit) : TextEdit :=
  match e.compose with
  | none => e
  | some preedit_range =>
    let text' := replaceRange e.text preedit_range.start preedit_range.stop []
    let e := { e with compose := none, text := text', show_cursor := true }
    let c : Nat × Affinity :=
      if text'.length ≤ preedit_range.start then (text'.length, Affinity.Upstream)
      else (preedit_range.start, Affinity.Downstream)
    { e with selection := Cursor.toSelection ⟨c.1, c.2⟩ }

/-- `TextEdit::undo`. The history is consulted with the pre-edit
buffer (populating redo data from it), then the placeholder is cleared
when non-empty text comes back, then the two range edits run. -/
def TextEdit.undo (e : TextEdit) : TextEdit :=
  if e.compose.isSome then e
  else
    match e.history.undo e.text with
    | none => e
    | some (op, h') =>
      let e := { e with history := h' }
      let e := if !op.text_to_restore.isEmpty then e.clear_placeholder else e
      let text' := replaceRange e.text op.range_to_clear.start op.range_to_clear.stop []
      let e := { e with text := insertStr text' op.range_to_clear.start op.text_to_restore }
      let e := { e with selection := op.prev_selection }
      if e.single_line then e.remove_newlines else e

/-- `TextEdit::redo`. -/
def TextEdit.redo (e : TextEdit) : TextEdit :=
  if e.compose.isSome then e
  else
    match e.history.redo with
    | none => e
    | some (op, h') =>
      let e := { e with history := h' }
      let e := { e with
        text := replaceRange e.text op.range_to_clear.start op.range_to_clear.stop [] }
      let e := if !op.text_to_restore.isEmpty then e.clear_placeholder else e
      let e := { e with text := insertStr e.text op.range_to_clear.start op.text_to_restore }
      let stop := op.range_to_clear.start + op.text_to_restore.length
      let e := { e with selection := Cursor.toSelection ⟨stop, Affinity.Upstream⟩ }
      if e.single_line then e.remove_newlines else e

/-- The `Enter` decision of `handle_event_editable`: whether pressing
Enter inserts a newline, given the modifier state. -/
def TextEdit.enter_inserts_newline (e : TextEdit) (action_mod shift : Bool) : Bool :=
  let newline_mode_matches :=
    match e.newline_mode with
    | NewlineMode.Enter => !action_mod && !shift
    | NewlineMode.ShiftEnter => shift && !action_mod
    | NewlineMode.CtrlEnter => action_mod && !shift
    | NewlineMode.None => false
  newline_mode_matches && !e.single_line

/-- `TextEdit::new(String::new(), ..)`: the modelled fields of a fresh
empty edit box (parley `Selection::default()` is collapsed at 0). -/
def emptyEdit : TextEdit :=
  { text := [], selection := Selection.zero, compose := none, show_cursor := true,
    history := TextEditHistory.new, single_line := false,
    newline_mode := NewlineMode.Enter, showing_placeholder := false,
    placeholder_text := none, needs_relayout := false }

/-- `Text::handle_click_counting` from text.rs. `LastClickInfo`: time,
position, and the focused widget at click time (widgets are abstracted
to an identifier). Times and coordinates are `f64` in the source,
modelled by exact rationals. -/
structure LastClickInfo where
  time : ℚ
  pos : ℚ × ℚ
  focused : Option Nat
deriving DecidableEq

/-- The multi-click portion of the mouse input state in text.rs. -/
structure MouseClickState where
  last_click_info : Option LastClickInfo
  click_count : Nat
deriving DecidableEq

/-- `MULTICLICK_DELAY` (0.4 seconds). -/
def MULTICLICK_DELAY : ℚ := 2 / 5

/-- `MULTICLICK_TOLERANCE_SQUARED` (26.0). -/
def MULTICLICK_TOLERANCE_SQUARED : ℚ := 26

/-- `Text::handle_click_counting`: the click_count update on a
left-press at time `now`, position `current_pos`, with `focused` the
widget focused by this press. -/
def handle_click_counting (m : MouseClickState) (now : ℚ) (current_pos : ℚ × ℚ)
    (focused : Option Nat) : MouseClickState :=
  let count :=
    match m.last_click_info with
    | some last_info =>
      if now - last_info.time < MULTICLICK_DELAY ∧ last_info.focused = focused then
        let dx := current_pos.1 - last_info.pos.1
        let dy := current_pos.2 - last_info.pos.2
        let distance_squared := dx * dx + dy * dy
        if distance_squared ≤ MULTICLICK_TOLERANCE_SQUARED then
          (m.click_count + 1) % 4
        else 1
      else 1
    | none => 1
  { last_click_info := some ⟨now, current_pos, focused⟩, click_count := count }

/-! Concrete scenario states used by the theorems below. -/

/-- Typing the bytes of `"hello"` one `Key::Character` event at a time:
each event runs `insert_or_replace_selection` with that one character. -/
def helloBytes : Str := [104, 101, 108, 108, 111]

/-- The empty edit box after typing `"hello"` character by character. -/
def typedHello : TextEdit :=
  helloBytes.foldl (fun e c => e.insert_or_replace_selection [c]) emptyEdit

/-- Typing `n` copies of the byte `a` (0x61) one event at a time. -/
def typeAs (e : TextEdit) : Nat → TextEdit
  | 0 => e
  | n + 1 => (typeAs e n).insert_or_replace_selection [97]

/-- History after recording one insertion of `"a"` at 0. -/
def histA : TextEditHistory := TextEditHistory.new.record [] [97] Selection.zero ⟨0, 1⟩

/-- `histA` after one undo against the buffer `"a"`: `current_position`
is 0 with one (redo-populated) entry ahead of it. -/
def histB : TextEditHistory :=
  { undo_text := [],
    redo_text := [97],
    history := [{ undo := { inserted_range := ⟨0, 1⟩, deleted_range := ⟨0, 0⟩ },
                  redo := some { inserted_range := ⟨0, 0⟩, deleted_range := ⟨0, 1⟩ },
                  prev_selection := Selection.zero }],
    current_position := 0,
    can_grow := GrowHint.GrowableInsert 1 }

/-- Buffer `"ab"` fully selected (anchor 0, focus 2), not composing. -/
def nonCollapsedEdit : TextEdit :=
  { emptyEdit with
    text := [97, 98],
    selection := ⟨⟨0, Affinity.Downstream⟩, ⟨2, Affinity.Downstream⟩⟩ }

/-- A fresh empty edit switched to single-line mode. -/
def singleLineEdit : TextEdit := emptyEdit.set_single_line true

/-- `singleLineEdit` holding `"ab"` with the whole buffer selected. -/
def singleLineSelectedEdit : TextEdit :=
  { singleLineEdit with
    text := [97, 98],
    selection := ⟨⟨0, Affinity.Downstream⟩, ⟨2, Affinity.Downstream⟩⟩ }

/-- The state after the event sequence: type `a`; undo; redo; type `b`.
(Each step goes through the real public operations.) -/
def undoRedoProbe : TextEdit :=
  (((emptyEdit.insert_or_replace_selection [97]).undo).redo).insert_or_replace_selection [98]

/-- `n` rapid left-presses at the same position `(0, 0)`, 0.1 s apart,
with the focused widget unchanged (`none`), starting from the initial
mouse state (`click_count = 0`, no previous click). -/
def rapidClicks : Nat → MouseClickState
  | 0 => { last_click_info := none, click_count := 0 }
  | n + 1 => handle_click_counting (rapidClicks n) ((n : ℚ) / 10) (0, 0) none

/-!
C1. `undo; redo` as the identity on buffer and selection.

The code violates this on a reachable state. After type `a`; undo;
redo; type `b`, the second `record` coalesces the insertion into the
history entry whose `redo` data was already populated by the first
undo, and never invalidates that data. The next undo sees `redo` as
`Some` and does not refresh it, so the following redo applies the stale
ranges: it restores `"a"` (caret at 1) although the buffer immediately
before the undo was `"ab"` (caret at 2). This contradicts the code's
own lazy-population discipline (`RecordedOp::redo` is documented to be
the data needed to redo the element, populated when the element is
undone) and spec P6, so it is recorded as a code bug.
-/

/-- C1: evaluating the code at the failing input. After type `a`, undo,
redo, type `b` the buffer is `"ab"` with the selection collapsed at 2;
one further undo followed by redo yields buffer `"a"` with the
selection collapsed at 1 — `undo; redo` is not the identity there, and
the selection after redo differs from the one that followed the
original edit. -/
theorem C1_undo_redo_stale_after_coalesce :
    undoRedoProbe.text = [97, 98] ∧
    undoRedoProbe.selection = Cursor.toSelection ⟨2, Affinity.Upstream⟩ ∧
    ((undoRedoProbe.undo).redo).text = [97] ∧
    ((undoRedoProbe.undo).redo).text ≠ undoRedoProbe.text ∧
    ((undoRedoProbe.undo).redo).selection = Cursor.toSelection ⟨1, Affinity.Upstream⟩ := by
  decide

/-- C2 counterexample: with a non-collapsed starting selection the
composition consumes the selected text, and `clear_compose` does not
bring it back: from buffer `"ab"` fully selected, `set_compose "x"`
then `clear_compose` leaves `""`, not `"ab"`. -/
theorem C2_compose_noncollapsed_not_restored :
    nonCollapsedEdit.compose = none ∧
    nonCollapsedEdit.selection.isCollapsed = false ∧
    ((nonCollapsedEdit.set_compose [120] none).clear_compose).text ≠ nonCollapsedEdit.text := by
  decide

/-- C3 counterexample: `set_text` performs no newline removal, so a
single-line edit ends up holding `\n` after `set_text "a\nb"`; likewise
`set_compose` strips newlines only in its collapsed-selection branch,
so composing `"\n"` over a non-collapsed selection leaves `\n` in a
single-line buffer. -/
theorem C3_set_text_keeps_newlines :
    singleLineEdit.single_line = true ∧
    10 ∈ (singleLineEdit.set_text [97, 10, 98]).text ∧
    singleLineSelectedEdit.single_line = true ∧
    10 ∈ (singleLineSelectedEdit.set_compose [10] none).text := by
  decide

/-- C4: typing `"hello"` one character per event from an empty,
non-composing, placeholder-free edit leaves one coalesced history
entry, the buffer `"hello"`, and a single undo restores `""`. -/
theorem C4_insert_coalescing :
    typedHello.history.history.length = 1 ∧
    typedHello.text = helloBytes ∧
    (typedHello.undo).text = [] := by
  decide

/-- C5 counterexample: the grow hint stores the byte length of the
previous call's `new_str` (always 1 while typing single characters), so
coalescing never stops: 21 single-character insertions still form one
history entry, not more than one. -/
theorem C5_unbounded_single_char_coalescing :
    (typeAs emptyEdit 21).history.history.length = 1 := by
  decide

/-- C7 counterexample: `click_count` is stepped by `(count + 1) % 4`,
so four rapid same-place clicks with unchanged focus count 1, 2, 3, 0 —
the fourth count is 0, not the 1 the claim states. -/
theorem C7_fourth_click_counts_zero :
    (rapidClicks 1).click_count = 1 ∧
    (rapidClicks 2).click_count = 2 ∧
    (rapidClicks 3).click_count = 3 ∧
    (rapidClicks 4).click_count = 0 := by
  norm_num [rapidClicks, handle_click_counting, MULTICLICK_DELAY,
    MULTICLICK_TOLERANCE_SQUARED]

/-- C9: while composing (`compose.is_some()`), `undo` and `redo` return
immediately: the whole state — buffer, selection, history list and
`current_position` included — is unchanged. -/
theorem C9_undo_redo_noop_while_composing (e : TextEdit)
    (hc : e.compose.isSome = true) : e.undo = e ∧ e.redo = e := by
  constructor
  · unfold TextEdit.undo
    rw [if_pos hc]
  · unfold TextEdit.redo
    rw [if_pos hc]

/-- C9 witness: a concrete composing state (reached through
`set_compose`) on which undo and redo are no-ops. -/
theorem C9_witness :
    (nonCollapsedEdit.set_compose [120] none).undo = nonCollapsedEdit.set_compose [120] none ∧
    (nonCollapsedEdit.set_compose [120] none).redo = nonCollapsedEdit.set_compose [120] none :=
  C9_undo_redo_noop_while_composing (nonCollapsedEdit.set_compose [120] none) (by decide)

/-- C6: whenever `record` runs with `current_position < history.len()`,
it first truncates the future — `undo_text` is cut at
`history[current_position].undo.deleted_range.start`, `redo_text` is
cleared, the op list is truncated at `current_position` — and then
records the new edit exactly as it would on that truncated state. -/
theorem C6_record_truncates_future (h : TextEditHistory) (old_str new_str : Str)
    (sel : Selection) (ir : NRange)
    (hlt : h.current_position < h.history.length) :
    h.truncate_future.undo_text =
      h.undo_text.take ((h.history.getD h.current_position default).undo.deleted_range.start) ∧
    h.truncate_future.redo_text = [] ∧
    h.truncate_future.history = h.history.take h.current_position ∧
    h.record old_str new_str sel ir =
      h.truncate_future.record old_str new_str sel ir := by
  refine ⟨rfl, rfl, rfl, ?_⟩
  have hnot : ¬ (h.truncate_future.current_position < h.truncate_future.history.length) := by
    simp only [TextEditHistory.truncate_future, List.length_take]
    omega
  conv_lhs => rw [TextEditHistory.record, if_pos hlt]
  conv_rhs => rw [TextEditHistory.record, if_neg hnot]

/-- C6 witness: `histB` has `current_position = 0` in front of one
history entry, so recording there goes through the truncation path. -/
theorem C6_witness :
    histB.current_position < histB.history.length ∧
    histB.record [] [98] Selection.zero ⟨0, 1⟩ =
      histB.truncate_future.record [] [98] Selection.zero ⟨0, 1⟩ :=
  ⟨by decide,
   (C6_record_truncates_future histB [] [98] Selection.zero ⟨0, 1⟩ (by decide)).2.2.2⟩

/-- The byte map applied by `remove_newlines_inplace`: `\n` and `\r`
become a space, everything else is untouched. -/
def newlineToSpace (b : Nat) : Nat := if b == 10 || b == 13 then 32 else b

/-- The replacement loop of `remove_newlines_inplace` maps
`newlineToSpace` over the bytes (each replacement is one byte for one
byte, so indices and length are stable through the loop). -/
theorem remove_newlines_inplace_fst (s : Str) :
    (remove_newlines_inplace s).1 = s.map newlineToSpace := by
  induction s with
  | nil => rfl
  | cons b rest ih =>
    by_cases hb : (b == 10 || b == 13) = true <;>
      simp [remove_newlines_inplace, hb, ih, newlineToSpace]

/-- `TextEdit::remove_newlines` rewrites the buffer to the stripped
bytes and changes nothing else except `needs_relayout`. -/
theorem remove_newlines_text (e : TextEdit) :
    (e.remove_newlines).text = e.text.map newlineToSpace := by
  simp only [TextEdit.remove_newlines]
  split <;> simp [remove_newlines_inplace_fst]

/-- Full characterization of `set_single_line true` on a multi-line
edit (`needs_relayout` ends up true on both `remove_newlines` paths). -/
theorem set_single_line_true_eq (e : TextEdit) (hml : e.single_line = false) :
    e.set_single_line true =
      { e with single_line := true, newline_mode := NewlineMode.None,
               text := e.text.map newlineToSpace, needs_relayout := true } := by
  simp only [TextEdit.set_single_line, hml, TextEdit.remove_newlines,
    remove_newlines_inplace_fst]
  rw [if_pos (show (false != true) = true from rfl), if_pos trivial]
  split <;> rfl

/-- C10: switching a multi-line edit to single-line sets the newline
mode to `None` and replaces every `\n`/`\r` byte of the buffer with one
space byte, keeping the byte length; `set_newline_mode` is a complete
no-op while single-line; switching back restores `Enter`. -/
theorem C10_single_line_mode (e : TextEdit) (mode : NewlineMode)
    (hml : e.single_line = false) :
    (e.set_single_line true).newline_mode = NewlineMode.None ∧
    (e.set_single_line true).text = e.text.map newlineToSpace ∧
    (e.set_single_line true).text.length = e.text.length ∧
    (∀ e2 : TextEdit, e2.single_line = true → e2.set_newline_mode mode = e2) ∧
    (∀ e2 : TextEdit, e2.single_line = true →
      (e2.set_single_line false).newline_mode = NewlineMode.Enter) := by
  refine ⟨?_, ?_, ?_, ?_, ?_⟩
  · rw [set_single_line_true_eq e hml]
  · rw [set_single_line_true_eq e hml]
  · rw [set_single_line_true_eq e hml]
    exact List.length_map _ _
  · intro e2 h2
    simp [TextEdit.set_newline_mode, h2]
  · intro e2 h2
    simp [TextEdit.set_single_line, h2]

/-- C10 witness: a multi-line buffer `"a\n\rb"` switched to single-line
becomes `"a  b"` byte for byte. -/
theorem C10_witness :
    (({ emptyEdit with text := [97, 10, 13, 98] } : TextEdit).set_single_line true).text =
      ([97, 10, 13, 98] : Str).map newlineToSpace :=
  (C10_single_line_mode { emptyEdit with text := [97, 10, 13, 98] }
    NewlineMode.ShiftEnter rfl).2.1

/-- C7 amended: on a left-press, when the previous press is within the
delay, on the same focused widget, and within squared distance 26, the
count becomes `(count + 1) % 4`; in every other case it resets to 1.
Rapid same-place clicks therefore count 1, 2, 3, 0, 1, 2, 3, 0, … (the
fourth click in a burst counts 0, not 1). -/
theorem C7_click_count_mod_four (m : MouseClickState) (now : ℚ) (pos : ℚ × ℚ)
    (focused : Option Nat) :
    (∀ info, m.last_click_info = some info →
      now - info.time < MULTICLICK_DELAY →
      info.focused = focused →
      (pos.1 - info.pos.1) * (pos.1 - info.pos.1) +
        (pos.2 - info.pos.2) * (pos.2 - info.pos.2) ≤ MULTICLICK_TOLERANCE_SQUARED →
      (handle_click_counting m now pos focused).click_count = (m.click_count + 1) % 4) ∧
    (∀ info, m.last_click_info = some info →
      ¬ (now - info.time < MULTICLICK_DELAY ∧ info.focused = focused) →
      (handle_click_counting m now pos focused).click_count = 1) ∧
    (∀ info, m.last_click_info = some info →
      ¬ ((pos.1 - info.pos.1) * (pos.1 - info.pos.1) +
        (pos.2 - info.pos.2) * (pos.2 - info.pos.2) ≤ MULTICLICK_TOLERANCE_SQUARED) →
      (handle_click_counting m now pos focused).click_count = 1) ∧
    (m.last_click_info = none →
      (handle_click_counting m now pos focused).click_count = 1) ∧
    (rapidClicks 5).click_count = 1 := by
  refine ⟨?_, ?_, ?_, ?_, ?_⟩
  · intro info hinfo h1 h2 h3
    simp only [handle_click_counting, hinfo]
    rw [if_pos ⟨h1, h2⟩, if_pos h3]
  · intro info hinfo hne
    simp only [handle_click_counting, hinfo]
    rw [if_neg hne]
  · intro info hinfo h3
    simp only [handle_click_counting, hinfo]
    by_cases h12 : now - info.time < MULTICLICK_DELAY ∧ info.focused = focused
    · rw [if_pos h12, if_neg h3]
    · rw [if_neg h12]
  · intro hnone
    simp only [handle_click_counting, hnone]
  · norm_num [rapidClicks, handle_click_counting, MULTICLICK_DELAY,
      MULTICLICK_TOLERANCE_SQUARED]

/-- C7 amended witness: a rapid same-place second click one tenth of a
second after the first steps the count by `(count + 1) % 4`. -/
theorem C7_witness :
    (handle_click_counting ⟨some ⟨0, (0, 0), none⟩, 1⟩ (1 / 10) (0, 0) none).click_count =
      (1 + 1) % 4 :=
  (C7_click_count_mod_four ⟨some ⟨0, (0, 0), none⟩, 1⟩ (1 / 10) (0, 0) none).1
    ⟨0, (0, 0), none⟩ rfl (by norm_num [MULTICLICK_DELAY]) rfl
    (by norm_num [MULTICLICK_TOLERANCE_SQUARED])

/-- `set_grow_hint` never touches the op list. -/
theorem set_grow_hint_history (h : TextEditHistory) (new_str old_str : Str) :
    (h.set_grow_hint new_str old_str).history = h.history := by
  unfold TextEditHistory.set_grow_hint
  split <;> rfl

/-- `set_grow_hint` never touches `current_position`. -/
theorem set_grow_hint_position (h : TextEditHistory) (new_str old_str : Str) :
    (h.set_grow_hint new_str old_str).current_position = h.current_position := by
  unfold TextEditHistory.set_grow_hint
  split <;> rfl

/-- `push_new` appends exactly one op. -/
theorem push_new_length (h : TextEditHistory) (old_str : Str) (sel : Selection)
    (ir : NRange) :
    (h.push_new old_str sel ir).history.length = h.history.length + 1 := by
  simp [TextEditHistory.push_new]

/-- The state reached by typing `n + 1` copies of `a` into a fresh
empty edit: the buffer holds the replicated byte, the caret sits after
it, and the whole burst is one insert-only history entry whose grow
hint still records size 1 (the length of the previous single-character
`new_str`). -/
def afterTypedAs (n : Nat) : TextEdit :=
  { text := List.replicate (n + 1) 97,
    selection := Cursor.toSelection ⟨n + 1, Affinity.Upstream⟩,
    compose := none, show_cursor := true,
    history :=
      { undo_text := [], redo_text := [],
        history := [{ undo := ⟨⟨0, n + 1⟩, ⟨0, 0⟩⟩, redo := none,
                      prev_selection := Selection.zero }],
        current_position := 1, can_grow := GrowHint.GrowableInsert 1 },
    single_line := false, newline_mode := NewlineMode.Enter,
    showing_placeholder := false, placeholder_text := none,
    needs_relayout := false }

/-- One more typed character coalesces into the single entry. -/
theorem insert_char_step (k : Nat) :
    (afterTypedAs k).insert_or_replace_selection [97] = afterTypedAs (k + 1) := by
  have htake : List.take (k + 1) (List.replicate (k + 1) (97 : Nat)) =
      List.replicate (k + 1) 97 := by
    simp [List.take_replicate]
  have hdrop : List.drop (k + 1) (List.replicate (k + 1) (97 : Nat)) = [] := by
    simp [List.drop_replicate]
  simp [afterTypedAs, TextEdit.insert_or_replace_selection, TextEdit.clear_placeholder,
    TextEdit.replace_selection_and_record, TextEdit.replace_selection,
    TextEditHistory.record, TextEditHistory.extend_last_insert,
    TextEditHistory.set_grow_hint, Selection.textStart, Selection.textStop,
    Selection.isCollapsed, Cursor.toSelection, sliceStr, insertStr, htake, hdrop,
    lastChar, utf8Chars, charIsWhitespace, Ranges.is_insert_only, NRange.isEmpty,
    MAX_GROWABLE_SIZE]
  simp [List.replicate_succ']

/-- Typing characters one at a time from the empty edit always leaves
exactly the coalesced state. -/
theorem typeAs_eq (n : Nat) : typeAs emptyEdit (n + 1) = afterTypedAs n := by
  induction n with
  | zero => decide
  | succ k ih =>
    show (typeAs emptyEdit (k + 1)).insert_or_replace_selection [97] = afterTypedAs (k + 1)
    rw [ih]
    exact insert_char_step k

/-- C5 amended: the 20-byte bound is checked against the grow hint,
which stores the byte length of the previous `record` call's `new_str`
(not the accumulated entry length). A single-character insertion always
re-arms the hint with size 1, so typing characters one at a time
coalesces without bound — any number of typed characters yields exactly
one history entry — while an insertion recorded after a `record` whose
`new_str` was 20 bytes or longer does start a new entry. -/
theorem C5_hint_size_is_previous_insert (n : Nat) :
    (typeAs emptyEdit (n + 1)).history.history.length = 1 ∧
    (∀ (h : TextEditHistory) (old_str new_str : Str) (sel : Selection) (ir : NRange) (k : Nat),
      h.can_grow = GrowHint.GrowableInsert k →
      MAX_GROWABLE_SIZE ≤ k →
      h.current_position = h.history.length →
      (h.record old_str new_str sel ir).history.length = h.history.length + 1) := by
  constructor
  · rw [typeAs_eq n]
    rfl
  · intro h old_str new_str sel ir k hk hge hcl
    unfold TextEditHistory.record
    rw [if_neg (by omega)]
    have hguard : (old_str.isEmpty && decide (k < MAX_GROWABLE_SIZE)) = false := by
      have : decide (k < MAX_GROWABLE_SIZE) = false := by
        simp [MAX_GROWABLE_SIZE] at hge ⊢
        omega
      simp [this]
    rw [set_grow_hint_history]
    cases hl : h.history.getLast? with
    | none => exact push_new_length h old_str sel ir
    | some last =>
      simp only [hk, hguard, Bool.false_eq_true, if_false]
      exact push_new_length h old_str sel ir

/-- C5 amended witness: after one 20-byte insertion is recorded, the
hint holds size 20, and a following insertion pushes a second entry. -/
theorem C5_witness :
    ((TextEditHistory.new.record [] (List.replicate 20 97) Selection.zero
        ⟨0, 20⟩).record [] [97] Selection.zero ⟨20, 21⟩).history.length =
      (TextEditHistory.new.record [] (List.replicate 20 97) Selection.zero
        ⟨0, 20⟩).history.length + 1 :=
  (C5_hint_size_is_previous_insert 0).2
    (TextEditHistory.new.record [] (List.replicate 20 97) Selection.zero ⟨0, 20⟩)
    [] [97] Selection.zero ⟨20, 21⟩ 20 (by decide) (by decide) (by decide)


/-- `extend_last_insert` keeps the op count (the last op is replaced). -/
theorem extend_last_insert_length (h : TextEditHistory) (ir : NRange) :
    (h.extend_last_insert ir).history.length = h.history.length := by
  unfold TextEditHistory.extend_last_insert
  cases hgl : h.history.getLast? with
  | none => rfl
  | some last =>
    have hne : h.history ≠ [] := by
      intro he; rw [he] at hgl; exact Option.noConfusion hgl
    have hpos := List.length_pos.mpr hne
    simp [List.length_dropLast]
    omega

/-- `extend_last_insert` keeps `current_position`. -/
theorem extend_last_insert_position (h : TextEditHistory) (ir : NRange) :
    (h.extend_last_insert ir).current_position = h.current_position := by
  unfold TextEditHistory.extend_last_insert
  cases h.history.getLast? <;> rfl

/-- `merge_delete` keeps the op count. -/
theorem merge_delete_length (h : TextEditHistory) (old_str : Str) (ir : NRange) :
    (h.merge_delete old_str ir).history.length = h.history.length := by
  unfold TextEditHistory.merge_delete
  cases hgl : h.history.getLast? with
  | none => rfl
  | some last =>
    have hne : h.history ≠ [] := by
      intro he; rw [he] at hgl; exact Option.noConfusion hgl
    have hpos := List.length_pos.mpr hne
    simp [List.length_dropLast]
    omega

/-- `merge_delete` keeps `current_position`. -/
theorem merge_delete_position (h : TextEditHistory) (old_str : Str) (ir : NRange) :
    (h.merge_delete old_str ir).current_position = h.current_position := by
  unfold TextEditHistory.merge_delete
  cases h.history.getLast? <;> rfl

/-- After any `record`, `current_position` equals the history length:
the truncation closes a gap below, and every arm either touches neither
count or bumps both. -/
theorem record_cur_eq_len (h : TextEditHistory) (old_str new_str : Str)
    (sel : Selection) (ir : NRange)
    (hle : h.current_position ≤ h.history.length) :
    (h.record old_str new_str sel ir).current_position =
      (h.record old_str new_str sel ir).history.length := by
  unfold TextEditHistory.record
  rw [set_grow_hint_position, set_grow_hint_history]
  set h1 := if h.current_position < h.history.length then h.truncate_future else h with hh1
  have h1eq : h1.current_position = h1.history.length := by
    rw [hh1]
    split
    · next hc =>
      simp only [TextEditHistory.truncate_future, List.length_take]
      omega
    · next hc => omega
  cases hgl : h1.history.getLast? with
  | none => simp [TextEditHistory.push_new, h1eq]
  | some last =>
    cases hcg : h1.can_grow with
    | CannotGrow => simp [TextEditHistory.push_new, h1eq]
    | GrowableInsert size =>
      by_cases hb : (old_str.isEmpty && decide (size < MAX_GROWABLE_SIZE)) = true
      · simp only [hb, if_true]
        rw [extend_last_insert_position, extend_last_insert_length, h1eq]
      · simp only [hb, if_false]
        simp [TextEditHistory.push_new, h1eq]
    | GrowableInsertWhitespace size =>
      by_cases hb : (old_str.isEmpty && strIsWhitespace new_str &&
          decide (size < MAX_GROWABLE_SIZE)) = true
      · simp only [hb, if_true]
        rw [extend_last_insert_position, extend_last_insert_length, h1eq]
      · simp only [hb, if_false]
        simp [TextEditHistory.push_new, h1eq]
    | GrowableDelete size =>
      by_cases hb : (ir.isEmpty && decide (size < MAX_GROWABLE_SIZE)) = true
      · simp only [hb, if_true]
        rw [merge_delete_position, merge_delete_length, h1eq]
      · simp only [hb, if_false]
        simp [TextEditHistory.push_new, h1eq]
    | GrowableDeleteWhitespace size =>
      by_cases hb : (ir.isEmpty && strIsWhitespace old_str &&
          decide (size < MAX_GROWABLE_SIZE)) = true
      · simp only [hb, if_true]
        rw [merge_delete_position, merge_delete_length, h1eq]
      · simp only [hb, if_false]
        simp [TextEditHistory.push_new, h1eq]


/-- Invariant on history states: `current_position` never exceeds the
op count, and every op in the future part (`index ≥ current_position`)
has its `redo` data populated. -/
def histWellFormed (h : TextEditHistory) : Prop :=
  h.current_position ≤ h.history.length ∧
  ∀ i, h.current_position ≤ i → ∀ hi : i < h.history.length,
    ((h.history.get ⟨i, hi⟩).redo).isSome = true

/-- The history states reachable through the public
`record` / `undo` / `redo` API, starting from `TextEditHistory::new`. -/
inductive HReach : TextEditHistory → Prop
  | init : HReach TextEditHistory.new
  | record_step (h : TextEditHistory) (old_str new_str : Str) (sel : Selection)
      (ir : NRange) : HReach h → HReach (h.record old_str new_str sel ir)
  | undo_step (h : TextEditHistory) (buffer : Str) (r : TextRestore)
      (h' : TextEditHistory) : HReach h → h.undo buffer = some (r, h') → HReach h'
  | redo_step (h : TextEditHistory) (r : TextRestore) (h' : TextEditHistory) :
      HReach h → h.redo = some (r, h') → HReach h'

theorem hist_wf_new : histWellFormed TextEditHistory.new := by
  constructor
  · exact Nat.le_refl 0
  · intro i hge hi
    simp [TextEditHistory.new] at hi

theorem hist_wf_record (h : TextEditHistory) (old_str new_str : Str) (sel : Selection)
    (ir : NRange) (hwf : histWellFormed h) :
    histWellFormed (h.record old_str new_str sel ir) := by
  have hpos := record_cur_eq_len h old_str new_str sel ir hwf.1
  refine ⟨le_of_eq hpos, ?_⟩
  intro i hge hi
  omega

theorem hist_wf_undo (h : TextEditHistory) (buffer : Str) (r : TextRestore)
    (h' : TextEditHistory) (hu : h.undo buffer = some (r, h'))
    (hwf : histWellFormed h) : histWellFormed h' := by
  unfold TextEditHistory.undo at hu
  by_cases hp : h.current_position > 0
  case neg => rw [if_neg hp] at hu; exact Option.noConfusion hu
  case pos =>
  rw [if_pos hp] at hu
  simp only [Option.some.injEq, Prod.mk.injEq] at hu
  obtain ⟨hr, hh⟩ := hu
  have hlt : h.current_position - 1 < h.history.length := by
    have := hwf.1; omega
  subst hh
  constructor
  · show h.current_position - 1 ≤ (h.history.set (h.current_position - 1) _).length
    simp only [List.length_set]
    omega
  · intro i hge hi
    have hge' : h.current_position - 1 ≤ i := hge
    have hi' : i < h.history.length := by
      simpa only [List.length_set] using hi
    by_cases hieq : i = h.current_position - 1
    · subst hieq
      by_cases hn : ((h.history.getD (h.current_position - 1) default).redo).isNone = true
      · rw [List.get_set_eq, if_pos hn]
        rfl
      · have hsome : ((h.history.getD (h.current_position - 1) default).redo).isSome = true := by
          cases hx : (h.history.getD (h.current_position - 1) default).redo with
          | none => rw [hx] at hn; simp at hn
          | some rr => rfl
        rw [List.get_set_eq, if_neg hn]
        exact hsome
    · rw [List.get_set_ne (Ne.symm hieq) hi]
      exact hwf.2 i (by omega) hi'

theorem hist_wf_redo (h : TextEditHistory) (r : TextRestore)
    (h' : TextEditHistory) (hu : h.redo = some (r, h'))
    (hwf : histWellFormed h) : histWellFormed h' := by
  unfold TextEditHistory.redo at hu
  split at hu
  · exact Option.noConfusion hu
  · next last hm =>
    split at hu
    · exact Option.noConfusion hu
    · next rr hrd =>
      simp only [Option.some.injEq, Prod.mk.injEq] at hu
      obtain ⟨_, hh⟩ := hu
      subst hh
      have hlt : h.current_position < h.history.length :=
        (List.getElem?_eq_some.mp hm).1
      refine ⟨hlt, ?_⟩
      intro i hge hi
      have hge' : h.current_position + 1 ≤ i := hge
      exact hwf.2 i (by omega) hi

/-- The condition under which `TextEditHistory::redo` would reach its
`unwrap` on a missing redo entry and panic: an op sits at
`current_position` but its `redo` field is unpopulated. -/
def redo_would_panic (h : TextEditHistory) : Bool :=
  match h.history[h.current_position]? with
  | some op => op.redo.isNone
  | none => false

/-- C8: in every history state reachable through the public
`record` / `undo` / `redo` API, whenever an op exists at
`current_position` (the precondition for `redo` to act), its `redo`
field has been populated by the undo that visited that position, so the
`unwrap` inside `redo` cannot panic. -/
theorem C8_redo_entry_populated (h : TextEditHistory) (hr : HReach h) :
    redo_would_panic h = false := by
  have hwf : histWellFormed h := by
    induction hr with
    | init => exact hist_wf_new
    | record_step h old_str new_str sel ir _ ih => exact hist_wf_record h old_str new_str sel ir ih
    | undo_step h buffer r h' _ hu ih => exact hist_wf_undo h buffer r h' hu ih
    | redo_step h r h' _ hu ih => exact hist_wf_redo h r h' hu ih
  unfold redo_would_panic
  cases hm : h.history[h.current_position]? with
  | none => rfl
  | some op =>
    have hlt : h.current_position < h.history.length :=
      (List.getElem?_eq_some.mp hm).1
    have hop : h.history.get ⟨h.current_position, hlt⟩ = op := by
      have := (List.getElem?_eq_some.mp hm).2
      simpa [List.get_eq_getElem] using this
    have hsome := hwf.2 h.current_position (Nat.le_refl _) hlt
    rw [hop] at hsome
    cases hx : op.redo with
    | none => rw [hx] at hsome; simp at hsome
    | some rr => simp [hx]

/-- C8 witness: `histB` (reached by record, then undo) has an op in
front of `current_position` whose redo data is populated. -/
theorem C8_witness : redo_would_panic histB = false :=
  C8_redo_entry_populated histB
    (HReach.undo_step histA [97]
      { range_to_clear := ⟨0, 1⟩, text_to_restore := [], prev_selection := Selection.zero }
      histB (HReach.record_step TextEditHistory.new [] [97] Selection.zero ⟨0, 1⟩ HReach.init)
      (by decide))


/-- A buffer predicate: no `\n` (10) or `\r` (13) bytes. -/
def noNewlineBytes (s : Str) : Prop := ∀ b ∈ s, b ≠ 10 ∧ b ≠ 13

theorem noNL_map (s : Str) : noNewlineBytes (s.map newlineToSpace) := by
  intro b hb
  obtain ⟨a, _, rfl⟩ := List.mem_map.mp hb
  unfold newlineToSpace
  split
  · exact ⟨by omega, by omega⟩
  · next hcond =>
    constructor
    · intro ha; rw [ha] at hcond; simp at hcond
    · intro ha; rw [ha] at hcond; simp at hcond

theorem map_newlineToSpace_id (s : Str) (hs : noNewlineBytes s) :
    s.map newlineToSpace = s := by
  induction s with
  | nil => rfl
  | cons b rest ih =>
    have hb := hs b (List.mem_cons_self b rest)
    have hrest : noNewlineBytes rest := fun x hx => hs x (List.mem_cons_of_mem b hx)
    simp only [List.map_cons, ih hrest]
    congr 1
    unfold newlineToSpace
    split
    · next hcond =>
      simp only [Bool.or_eq_true, beq_iff_eq] at hcond
      exact absurd hcond (by
        push_neg
        exact hb)
    · rfl

/-- An edit box in the middle of composing: the buffer is the original
with `mid` spliced in at `s`, and the compose range covers `mid`. -/
def composedOver (orig : Str) (s : Nat) (e : TextEdit) : Prop :=
  ∃ mid : Str, e.text = orig.take s ++ mid ++ orig.drop s ∧
    e.compose = some ⟨s, s + mid.length⟩


theorem remove_newlines_compose (e : TextEdit) :
    (e.remove_newlines).compose = e.compose := by
  simp only [TextEdit.remove_newlines]
  split <;> rfl

theorem remove_newlines_single_line (e : TextEdit) :
    (e.remove_newlines).single_line = e.single_line := by
  simp only [TextEdit.remove_newlines]
  split <;> rfl

theorem noNL_take (s : Str) (n : Nat) (hs : noNewlineBytes s) :
    noNewlineBytes (s.take n) :=
  fun b hb => hs b (List.mem_of_mem_take hb)

theorem noNL_drop (s : Str) (n : Nat) (hs : noNewlineBytes s) :
    noNewlineBytes (s.drop n) :=
  fun b hb => hs b (List.mem_of_mem_drop hb)

/-- Starting to compose on a collapsed caret splices the (possibly
newline-stripped) preedit text into the buffer at the caret and records
exactly that range in `compose`. -/
theorem set_compose_establishes (e : TextEdit) (t : Str) (c : Option (Nat × Nat))
    (hc : e.compose = none) (hcol : e.selection.isCollapsed = true)
    (hnl : e.single_line = true → noNewlineBytes e.text) :
    composedOver e.text e.selection.textStart (e.set_compose t c) := by
  unfold TextEdit.set_compose
  rw [hc]
  dsimp only
  rw [if_pos hcol]
  by_cases hsl : e.single_line = true
  · rw [if_pos hsl]
    refine ⟨t.map newlineToSpace, ?_, ?_⟩
    · dsimp only
      rw [remove_newlines_text]
      dsimp only
      unfold insertStr
      rw [List.map_append, List.map_append,
          map_newlineToSpace_id _ (noNL_take _ _ (hnl hsl)),
          map_newlineToSpace_id _ (noNL_drop _ _ (hnl hsl))]
    · dsimp only
      rw [List.length_map]
  · rw [if_neg hsl]
    exact ⟨t, rfl, rfl⟩

/-- A further `set_compose` while composing replaces exactly the spliced
range. -/
theorem set_compose_preserves (orig : Str) (s : Nat) (e : TextEdit) (t : Str)
    (c : Option (Nat × Nat)) (hle : s ≤ orig.length)
    (hinv : composedOver orig s e) :
    composedOver orig s (e.set_compose t c) := by
  obtain ⟨mid, htext, hcomp⟩ := hinv
  have hlen : (orig.take s).length = s := by
    simp [List.length_take]
    omega
  unfold TextEdit.set_compose
  rw [hcomp]
  refine ⟨t, ?_, rfl⟩
  show replaceRange e.text s (s + mid.length) t = _
  rw [htext]
  unfold replaceRange
  have h1 : (orig.take s ++ mid ++ orig.drop s).take s = orig.take s := by
    rw [List.append_assoc, List.take_left' hlen]
  have h2 : (orig.take s ++ mid ++ orig.drop s).drop (s + mid.length) = orig.drop s := by
    rw [List.drop_left']
    simp [hlen]
  rw [h1, h2]

/-- `clear_compose` removes exactly the spliced range, recovering the
original buffer. -/
theorem clear_compose_restores (orig : Str) (s : Nat) (e : TextEdit)
    (hle : s ≤ orig.length) (hinv : composedOver orig s e) :
    (e.clear_compose).text = orig := by
  obtain ⟨mid, htext, hcomp⟩ := hinv
  have hlen : (orig.take s).length = s := by
    simp [List.length_take]
    omega
  unfold TextEdit.clear_compose
  rw [hcomp]
  show replaceRange e.text s (s + mid.length) [] = orig
  rw [htext]
  unfold replaceRange
  have h1 : (orig.take s ++ mid ++ orig.drop s).take s = orig.take s := by
    rw [List.append_assoc, List.take_left' hlen]
  have h2 : (orig.take s ++ mid ++ orig.drop s).drop (s + mid.length) = orig.drop s := by
    rw [List.drop_left']
    simp [hlen]
  rw [h1, h2]
  simp [List.take_append_drop]

/-- Any run of `set_compose` calls (one per `Ime::Preedit` event). -/
def applyComposes (e : TextEdit) (steps : List (Str × Option (Nat × Nat))) : TextEdit :=
  steps.foldl (fun acc p => acc.set_compose p.1 p.2) e

theorem applyComposes_preserves (orig : Str) (s : Nat)
    (steps : List (Str × Option (Nat × Nat))) (hle : s ≤ orig.length) :
    ∀ e : TextEdit, composedOver orig s e →
      composedOver orig s (applyComposes e steps) := by
  induction steps with
  | nil => intro e hinv; exact hinv
  | cons p rest ih =>
    intro e hinv
    exact ih (e.set_compose p.1 p.2) (set_compose_preserves orig s e p.1 p.2 hle hinv)


/-- C2 amended: starting from a non-composing state with a collapsed,
in-bounds caret (and, in single-line mode, a buffer already free of
newline bytes — the invariant single-line buffers maintain), any
sequence of one or more `set_compose` calls followed by `clear_compose`
restores the buffer exactly. (With a non-collapsed starting selection
the claim fails: see the counterexample.) -/
theorem C2_compose_roundtrip_collapsed (e : TextEdit) (t : Str)
    (c : Option (Nat × Nat)) (steps : List (Str × Option (Nat × Nat)))
    (hc : e.compose = none) (hcol : e.selection.isCollapsed = true)
    (hle : e.selection.textStart ≤ e.text.length)
    (hnl : e.single_line = true → noNewlineBytes e.text) :
    ((applyComposes (e.set_compose t c) steps).clear_compose).text = e.text :=
  clear_compose_restores e.text e.selection.textStart _ hle
    (applyComposes_preserves e.text e.selection.textStart steps hle
      (e.set_compose t c)
      (set_compose_establishes e t c hc hcol hnl))

/-- Buffer `"ab"` with the caret collapsed at byte 1, not composing. -/
def collapsedAt1Edit : TextEdit :=
  { emptyEdit with
    text := [97, 98],
    selection := Cursor.toSelection ⟨1, Affinity.Upstream⟩ }

/-- C2 amended witness: from `collapsedAt1Edit`, composing `"xy"` then
`"w"` and clearing restores `"ab"`. -/
theorem C2_witness :
    ((applyComposes (collapsedAt1Edit.set_compose [120, 121] (some (0, 1)))
        [([119], none)]).clear_compose).text = [97, 98] :=
  C2_compose_roundtrip_collapsed collapsedAt1Edit [120, 121] (some (0, 1))
    [([119], none)] rfl (by decide) (by decide)
    (by intro h; exact absurd h (by decide))


theorem clear_placeholder_single_line (e : TextEdit) :
    (e.clear_placeholder).single_line = e.single_line := by
  unfold TextEdit.clear_placeholder
  split <;> rfl

/-- The conditional placeholder clearing inside undo / redo keeps
`single_line`. -/
theorem ite_clear_placeholder_single_line (b : Bool) (y : TextEdit) :
    (if b = true then y.clear_placeholder else y).single_line = y.single_line := by
  split
  · exact clear_placeholder_single_line y
  · rfl

theorem noNL_replaceRange_empty (s : Str) (a b : Nat) (hpre : noNewlineBytes s) :
    noNewlineBytes (replaceRange s a b []) := by
  intro x hx
  unfold replaceRange at hx
  simp only [List.append_nil, List.nil_append, List.mem_append] at hx
  rcases hx with hx | hx
  · exact hpre x (List.mem_of_mem_take hx)
  · exact hpre x (List.mem_of_mem_drop hx)

/-- In single-line mode `replace_selection` strips the whole buffer on
both of its branches. -/
theorem replace_selection_noNL (e : TextEdit) (s : Str)
    (hsl : e.single_line = true) :
    noNewlineBytes ((e.replace_selection s).text) := by
  unfold TextEdit.replace_selection
  dsimp only
  by_cases hcol : e.selection.isCollapsed = true
  · rw [if_pos hcol, if_pos hsl, remove_newlines_text]
    exact noNL_map _
  · rw [if_neg hcol, if_pos hsl, remove_newlines_text]
    exact noNL_map _

/-- In single-line mode every `insert_or_replace_selection` (character
typing, Space, paste, IME commit) leaves a newline-free buffer. -/
theorem insert_or_replace_noNL (e : TextEdit) (s : Str)
    (hsl : e.single_line = true) :
    noNewlineBytes ((e.insert_or_replace_selection s).text) := by
  unfold TextEdit.insert_or_replace_selection TextEdit.replace_selection_and_record
  dsimp only
  apply replace_selection_noNL
  show (e.clear_placeholder).single_line = true
  rw [clear_placeholder_single_line]
  exact hsl

theorem undo_noNL (e : TextEdit) (hsl : e.single_line = true)
    (hpre : noNewlineBytes e.text) : noNewlineBytes ((e.undo).text) := by
  unfold TextEdit.undo
  by_cases hcomp : e.compose.isSome = true
  · rw [if_pos hcomp]; exact hpre
  · rw [if_neg hcomp]
    cases hm : e.history.undo e.text with
    | none => exact hpre
    | some pr =>
      dsimp only
      by_cases hpl : (!pr.1.text_to_restore.isEmpty) = true
      · rw [if_pos hpl]
        split
        · rw [remove_newlines_text]; exact noNL_map _
        · next hf =>
          exfalso
          apply hf
          show (({ e with history := pr.2 } : TextEdit).clear_placeholder).single_line = true
          rw [clear_placeholder_single_line]
          exact hsl
      · rw [if_neg hpl, if_pos hsl, remove_newlines_text]
        exact noNL_map _

theorem redo_noNL (e : TextEdit) (hsl : e.single_line = true)
    (hpre : noNewlineBytes e.text) : noNewlineBytes ((e.redo).text) := by
  unfold TextEdit.redo
  by_cases hcomp : e.compose.isSome = true
  · rw [if_pos hcomp]; exact hpre
  · rw [if_neg hcomp]
    cases hm : e.history.redo with
    | none => exact hpre
    | some pr =>
      dsimp only
      by_cases hpl : (!pr.1.text_to_restore.isEmpty) = true
      · rw [if_pos hpl]
        split
        · rw [remove_newlines_text]; exact noNL_map _
        · next hf =>
          exfalso
          apply hf
          show (({ e with
                   history := pr.2,
                   text := replaceRange e.text pr.1.range_to_clear.start
                     pr.1.range_to_clear.stop [] } : TextEdit).clear_placeholder).single_line = true
          rw [clear_placeholder_single_line]
          exact hsl
      · rw [if_neg hpl, if_pos hsl, remove_newlines_text]
        exact noNL_map _

theorem clear_compose_noNL (e : TextEdit) (hpre : noNewlineBytes e.text) :
    noNewlineBytes ((e.clear_compose).text) := by
  unfold TextEdit.clear_compose
  cases hc : e.compose with
  | none => exact hpre
  | some pr =>
    dsimp only
    exact noNL_replaceRange_empty _ _ _ hpre

theorem set_compose_collapsed_noNL (e : TextEdit) (t : Str)
    (c : Option (Nat × Nat)) (hsl : e.single_line = true)
    (hc : e.compose = none) (hcol : e.selection.isCollapsed = true) :
    noNewlineBytes ((e.set_compose t c).text) := by
  unfold TextEdit.set_compose
  rw [hc]
  dsimp only
  rw [if_pos hcol, if_pos hsl, remove_newlines_text]
  exact noNL_map _

/-- C3 amended: with `single_line` set, the buffer stays free of `\n`
and `\r` after character insertion, paste, Space and IME commit (all of
which run `insert_or_replace_selection`), after undo and redo, after
`clear_compose`, and after a `set_compose` issued from a non-composing
collapsed-selection state; the Enter decision never inserts a newline
in single-line mode. `set_text`, and `set_compose` when already
composing or when replacing a non-collapsed selection, do NOT strip
newlines (see the counterexample), so the claim holds only for the
remaining APIs and undo/redo/clear_compose preserve rather than
establish the invariant. -/
theorem C3_single_line_no_newlines (e : TextEdit) (s t : Str)
    (c : Option (Nat × Nat)) (action_mod shift : Bool)
    (hsl : e.single_line = true) :
    noNewlineBytes ((e.insert_or_replace_selection s).text) ∧
    (noNewlineBytes e.text → noNewlineBytes ((e.undo).text)) ∧
    (noNewlineBytes e.text → noNewlineBytes ((e.redo).text)) ∧
    (noNewlineBytes e.text → noNewlineBytes ((e.clear_compose).text)) ∧
    (e.compose = none → e.selection.isCollapsed = true →
      noNewlineBytes ((e.set_compose t c).text)) ∧
    e.enter_inserts_newline action_mod shift = false := by
  refine ⟨insert_or_replace_noNL e s hsl, undo_noNL e hsl, redo_noNL e hsl,
    clear_compose_noNL e, ?_, ?_⟩
  · intro hc hcol
    exact set_compose_collapsed_noNL e t c hsl hc hcol
  · unfold TextEdit.enter_inserts_newline
    simp [hsl]

/-- C3 amended witness: pasting `"a\nb"` into the single-line edit box
leaves no newline byte in the buffer. -/
theorem C3_witness :
    noNewlineBytes ((singleLineEdit.insert_or_replace_selection [97, 10, 98]).text) :=
  (C3_single_line_no_newlines singleLineEdit [97, 10, 98] [] none false false
    (by decide)).1

end Parley2
